import Mathlib

/-!
# Verification of the plugable-express bootstrap core

Shallow embedding of the repository's three source files:

* the command-path registry (`app.ext.addCommandPath`),
* the two-stage error pipeline (the `capture` error-logging middleware and the
  `present` error-response middleware, together with `makeID` and `statusText`),
* the bootstrap orchestrator `appInit`,
* `getServerSettings` (from `src/src/liq-server/defaults.js`).

JavaScript objects are modelled as association lists of own properties in
insertion order; parameter payloads are identified by a `Nat` token so that
"reference-identical" becomes token equality.  `Math.random()` is modelled as
an oracle stream of draws in `Fin 34` (the code computes
`Math.floor(Math.random() * charactersLength)` with `charactersLength = 34`,
which always lies in `[0, 34)`).
-/

namespace PlugableExpress

/-! ## Command-path registry (`app.ext.addCommandPath`)

The registry `app.ext.commandPaths` is a plain JS object used as a trie: each
path segment is a property key, and the parameters payload is stored as the
zero-argument closure `() => parameters` under the property key
`"_parameters"` of the terminal node.  A node is therefore an association list
of own properties (insertion order preserved, as in JS) whose values are
themselves nodes; a node additionally records whether it is such a payload
closure (`fn = some p`, where `p` is the identity token of the shared
`parameters` object) — in JS a function is an object and can carry properties
of its own, which the walk can indeed create when a path segment is the
literal string `"_parameters"`. -/

inductive CPNode where
  | obj (entries : List (String × CPNode)) (fn : Option Nat) : CPNode

/-- First own property with the given key, in insertion order (JS property
lookup restricted to own properties; the prototype chain that `in` and
property gets additionally consult is added by the refinement around
`addCPAuxProto` below). -/
def lookupKey (k : String) : List (String × CPNode) → Option CPNode
  | [] => none
  | (k', v) :: rest => if k' = k then some v else lookupKey k rest

/-- Overwrite the property `k` with `v` (models in-place mutation of the
child object reached through `frontier = frontier[pathBit]`). -/
def replaceEntry (k : String) (v : CPNode) : List (String × CPNode) → List (String × CPNode)
  | [] => []
  | (k', v') :: rest =>
      if k' = k then (k', v) :: replaceEntry k v rest else (k', v') :: replaceEntry k v rest

/-- The walk of `addCommandPath` (part_000 lines 84-100): per segment, create
a fresh `{}` when the key is absent, then descend; at the terminal node fail
when `_parameters` is already set, else attach `() => parameters`.  Returns
the resulting trie and whether the call succeeded (`false` = the
`Non-unique command path` error was thrown; the throw happens before any
assignment at the terminal node, so the returned trie is the state the JS
object is left in).  The `in` test and the gets are own-property here —
exact for every execution that never meets a prototype-inherited key; the
refinement `addCPAuxProto` below models the chain as well. -/
def addCPAux (node : CPNode) (path : List String) (parameters : Nat) : CPNode × Bool :=
  match path, node with
  | [], .obj entries fn =>
      match lookupKey "_parameters" entries with
      | some _ => (.obj entries fn, false)
      | none => (.obj (entries ++ [("_parameters", .obj [] (some parameters))]) fn, true)
  | bit :: rest, .obj entries fn =>
      match lookupKey bit entries with
      | some child =>
          let r := addCPAux child rest parameters
          (.obj (replaceEntry bit r.1 entries) fn, r.2)
      | none =>
          let r := addCPAux (.obj [] none) rest parameters
          (.obj (entries ++ [(bit, r.1)]) fn, r.2)

/-- `app.ext.addCommandPath(commandPath, parameters)`: the thrown error
carries the message built from the joined path. -/
def addCommandPath (node : CPNode) (commandPath : List String) (parameters : Nat) :
    CPNode × Option String :=
  let r := addCPAux node commandPath parameters
  if r.2 then (r.1, none)
  else (r.1, some ("Non-unique command path: " ++ String.intercalate "/" commandPath))

/-- Retrieval of a registered path: walk the trie by segments and invoke the
attached `_parameters` accessor (the spec's "zero-argument accessor returning
the shared payload"); `none` when the walk fails or no closure is attached. -/
def getParams (node : CPNode) : List String → Option Nat
  | [] =>
      match node with
      | .obj entries _ =>
          match lookupKey "_parameters" entries with
          | some (.obj _ fn) => fn
          | none => none
  | bit :: rest =>
      match node with
      | .obj entries _ =>
          match lookupKey bit entries with
          | some child => getParams child rest
          | none => none

/-- Whether the walk of `path` reaches an existing node that already carries a
`_parameters` property (the exact condition under which `addCommandPath`
throws). -/
def pathOccupied (node : CPNode) : List String → Bool
  | [] =>
      match node with
      | .obj entries _ => (lookupKey "_parameters" entries).isSome
  | bit :: rest =>
      match node with
      | .obj entries _ =>
          match lookupKey bit entries with
          | some child => pathOccupied child rest
          | none => false

/-- A sequence of `addCommandPath` calls; a thrown error aborts the sequence
(the exception propagates out of the caller).  Returns the final trie and
whether every call succeeded. -/
def runRegs (node : CPNode) : List (List String × Nat) → CPNode × Bool
  | [] => (node, true)
  | (p, q) :: rest =>
      let r := addCommandPath node p q
      match r.2 with
      | none => runRegs r.1 rest
      | some _ => (r.1, false)

/-- The empty registry `app.ext.commandPaths = {}`. -/
def emptyRegistry : CPNode := .obj [] none

/-! ### Basic lookup lemmas -/

theorem lookupKey_append (k : String) (l : List (String × CPNode)) (k' : String) (v : CPNode) :
    lookupKey k (l ++ [(k', v)]) =
      match lookupKey k l with
      | some c => some c
      | none => if k' = k then some v else none := by
  induction l with
  | nil => simp [lookupKey]
  | cons hd tl ih =>
      obtain ⟨hk, hv⟩ := hd
      by_cases h : hk = k <;> simp [lookupKey, h, ih]

theorem lookupKey_replaceEntry_self (k : String) (v : CPNode) (l : List (String × CPNode))
    (h : (lookupKey k l).isSome) : lookupKey k (replaceEntry k v l) = some v := by
  induction l with
  | nil => simp [lookupKey] at h
  | cons hd tl ih =>
      obtain ⟨hk, hv⟩ := hd
      by_cases hkk : hk = k
      · simp [lookupKey, replaceEntry, hkk]
      · simp [lookupKey, replaceEntry, hkk] at h ⊢
        exact ih h

theorem lookupKey_replaceEntry_ne (k k' : String) (v : CPNode) (l : List (String × CPNode))
    (h : k' ≠ k) : lookupKey k' (replaceEntry k v l) = lookupKey k' l := by
  induction l with
  | nil => simp [replaceEntry, lookupKey]
  | cons hd tl ih =>
      obtain ⟨hk, hv⟩ := hd
      by_cases hkk : hk = k
      · subst hkk
        simp [lookupKey, replaceEntry, Ne.symm h, ih]
      · by_cases hk' : hk = k' <;> simp [lookupKey, replaceEntry, hkk, hk', h, ih]

/-- The function tag of a node (whether it is a `() => parameters` closure,
and for which payload). -/
def CPNode.fnOf : CPNode → Option Nat
  | .obj _ f => f

/-! ### Structural lemmas about the walk -/

theorem addCPAux_fnOf (node : CPNode) (path : List String) (q : Nat) :
    ((addCPAux node path q).1).fnOf = node.fnOf := by
  cases path with
  | nil =>
      obtain ⟨entries, fn⟩ := node
      cases h : lookupKey "_parameters" entries <;> simp [addCPAux, h, CPNode.fnOf]
  | cons bit rest =>
      obtain ⟨entries, fn⟩ := node
      cases h : lookupKey bit entries <;> simp [addCPAux, h, CPNode.fnOf]

/-- A walk that starts at a freshly created `{}` never throws. -/
theorem addCPAux_empty_ok (path : List String) (q : Nat) :
    (addCPAux (.obj [] none) path q).2 = true := by
  induction path with
  | nil => simp [addCPAux, lookupKey]
  | cons bit rest ih => simp [addCPAux, lookupKey, ih]

/-- `addCommandPath` throws exactly when the walk reaches an existing node
already carrying a `_parameters` property. -/
theorem addCPAux_ok_iff (path : List String) : ∀ (node : CPNode) (q : Nat),
    (addCPAux node path q).2 = !pathOccupied node path := by
  induction path with
  | nil =>
      intro node q
      obtain ⟨entries, fn⟩ := node
      cases h : lookupKey "_parameters" entries <;> simp [addCPAux, pathOccupied, h]
  | cons bit rest ih =>
      intro node q
      obtain ⟨entries, fn⟩ := node
      cases h : lookupKey bit entries with
      | none => simp [addCPAux, pathOccupied, h, addCPAux_empty_ok]
      | some child => simp [addCPAux, pathOccupied, h, ih]

/-- After a successful registration the freshly registered path is
retrievable and the accessor returns exactly the registered payload token. -/
theorem getParams_addCPAux_self (path : List String) : ∀ (node : CPNode) (q : Nat),
    (addCPAux node path q).2 = true → getParams (addCPAux node path q).1 path = some q := by
  induction path with
  | nil =>
      intro node q hok
      obtain ⟨entries, fn⟩ := node
      cases h : lookupKey "_parameters" entries with
      | some c => simp [addCPAux, h] at hok
      | none =>
          simp [addCPAux, h, getParams, lookupKey_append]
  | cons bit rest ih =>
      intro node q hok
      obtain ⟨entries, fn⟩ := node
      cases h : lookupKey bit entries with
      | some child =>
          simp only [addCPAux, h] at hok ⊢
          have hsome : (lookupKey bit entries).isSome := by simp [h]
          simp [getParams, lookupKey_replaceEntry_self bit _ entries hsome, ih child q hok]
      | none =>
          simp only [addCPAux, h] at hok ⊢
          simp [getParams, lookupKey_append, h, ih _ q hok]

theorem getParams_nil_some {entries : List (String × CPNode)} {fn : Option Nat} {c : CPNode}
    (h : lookupKey "_parameters" entries = some c) :
    getParams (.obj entries fn) [] = c.fnOf := by
  obtain ⟨ces, cfn⟩ := c
  simp [getParams, h, CPNode.fnOf]

theorem getParams_nil_none {entries : List (String × CPNode)} {fn : Option Nat}
    (h : lookupKey "_parameters" entries = none) :
    getParams (.obj entries fn) [] = none := by
  simp [getParams, h]

theorem getParams_cons_some {entries : List (String × CPNode)} {fn : Option Nat} {c : CPNode}
    {b : String} {rest : List String} (h : lookupKey b entries = some c) :
    getParams (.obj entries fn) (b :: rest) = getParams c rest := by
  simp [getParams, h]

theorem getParams_cons_none {entries : List (String × CPNode)} {fn : Option Nat}
    {b : String} {rest : List String} (h : lookupKey b entries = none) :
    getParams (.obj entries fn) (b :: rest) = none := by
  simp [getParams, h]

/-- Monotonicity: no `addCommandPath` call (successful or failing, at any
path) ever detaches or changes an already attached payload. -/
theorem getParams_addCPAux_mono (path' : List String) :
    ∀ (node : CPNode) (path : List String) (q q' : Nat),
      getParams node path = some q → getParams (addCPAux node path' q').1 path = some q := by
  induction path' with
  | nil =>
      intro node path q q' h
      obtain ⟨entries, fn⟩ := node
      cases hp : lookupKey "_parameters" entries with
      | some c => simpa [addCPAux, hp] using h
      | none =>
          cases path with
          | nil => rw [getParams_nil_none hp] at h; exact absurd h (by simp)
          | cons b rest =>
              cases hb : lookupKey b entries with
              | none => rw [getParams_cons_none hb] at h; exact absurd h (by simp)
              | some child =>
                  rw [getParams_cons_some hb] at h
                  simp only [addCPAux, hp]
                  have hb' : lookupKey b (entries ++ [("_parameters", .obj [] (some q'))]) =
                      some child := by
                    rw [lookupKey_append, hb]
                  rw [getParams_cons_some hb', h]
  | cons bit rest' ih =>
      intro node path q q' h
      obtain ⟨entries, fn⟩ := node
      cases hk : lookupKey bit entries with
      | some child =>
          simp only [addCPAux, hk]
          have hsome : (lookupKey bit entries).isSome := by simp [hk]
          have hrepl := lookupKey_replaceEntry_self bit (addCPAux child rest' q').1 entries hsome
          cases path with
          | nil =>
              by_cases hbit : bit = "_parameters"
              · subst hbit
                rw [getParams_nil_some hk] at h
                rw [getParams_nil_some hrepl, addCPAux_fnOf, h]
              · have hne : "_parameters" ≠ bit := fun hcontra => hbit hcontra.symm
                have hun := lookupKey_replaceEntry_ne bit "_parameters"
                  (addCPAux child rest' q').1 entries hne
                cases hp : lookupKey "_parameters" entries with
                | none =>
                    rw [getParams_nil_none hp] at h; exact absurd h (by simp)
                | some c =>
                    rw [getParams_nil_some hp] at h
                    rw [hp] at hun
                    rw [getParams_nil_some hun, h]
          | cons b rest =>
              by_cases hb : b = bit
              · subst hb
                rw [getParams_cons_some hk] at h
                rw [getParams_cons_some hrepl]
                exact ih child rest q q' h
              · have hun := lookupKey_replaceEntry_ne bit b (addCPAux child rest' q').1 entries hb
                cases hbb : lookupKey b entries with
                | none =>
                    rw [getParams_cons_none hbb] at h; exact absurd h (by simp)
                | some c =>
                    rw [getParams_cons_some hbb] at h
                    rw [hbb] at hun
                    rw [getParams_cons_some hun, h]
      | none =>
          simp only [addCPAux, hk]
          cases path with
          | nil =>
              cases hp : lookupKey "_parameters" entries with
              | none => rw [getParams_nil_none hp] at h; exact absurd h (by simp)
              | some c =>
                  rw [getParams_nil_some hp] at h
                  have hp' : lookupKey "_parameters"
                      (entries ++ [(bit, (addCPAux (.obj [] none) rest' q').1)]) = some c := by
                    rw [lookupKey_append, hp]
                  rw [getParams_nil_some hp', h]
          | cons b rest =>
              cases hb : lookupKey b entries with
              | none => rw [getParams_cons_none hb] at h; exact absurd h (by simp)
              | some c =>
                  rw [getParams_cons_some hb] at h
                  have hb' : lookupKey b
                      (entries ++ [(bit, (addCPAux (.obj [] none) rest' q').1)]) = some c := by
                    rw [lookupKey_append, hb]
                  rw [getParams_cons_some hb', h]

theorem pathOccupied_nil (entries : List (String × CPNode)) (fn : Option Nat) :
    pathOccupied (.obj entries fn) [] = (lookupKey "_parameters" entries).isSome := rfl

theorem pathOccupied_cons_some {entries : List (String × CPNode)} {fn : Option Nat} {c : CPNode}
    {b : String} {rest : List String} (h : lookupKey b entries = some c) :
    pathOccupied (.obj entries fn) (b :: rest) = pathOccupied c rest := by
  simp [pathOccupied, h]

theorem pathOccupied_cons_none {entries : List (String × CPNode)} {fn : Option Nat}
    {b : String} {rest : List String} (h : lookupKey b entries = none) :
    pathOccupied (.obj entries fn) (b :: rest) = false := by
  simp [pathOccupied, h]

/-- A node with no properties occupies no path. -/
theorem pathOccupied_nilEntries (fn : Option Nat) (path : List String) :
    pathOccupied (.obj [] fn) path = false := by
  cases path with
  | nil => simp [pathOccupied, lookupKey]
  | cons b rest => simp [pathOccupied, lookupKey]

/-- Registering a clean path (one containing no `_parameters` segment) never
makes a different path occupied: freshness of the remaining paths is
preserved. -/
theorem pathOccupied_addCPAux (path : List String) :
    ∀ (node : CPNode) (path' : List String) (q : Nat),
      pathOccupied node path' = false → path ≠ path' → "_parameters" ∉ path →
      pathOccupied (addCPAux node path q).1 path' = false := by
  induction path with
  | nil =>
      intro node path' q hfresh hne _
      obtain ⟨entries, fn⟩ := node
      cases hp : lookupKey "_parameters" entries with
      | some c => simpa [addCPAux, hp] using hfresh
      | none =>
          simp only [addCPAux, hp]
          cases path' with
          | nil => exact absurd rfl hne
          | cons b' r' =>
              cases hb : lookupKey b' entries with
              | some c =>
                  have hb' : lookupKey b'
                      (entries ++ [("_parameters", .obj [] (some q))]) = some c := by
                    rw [lookupKey_append, hb]
                  rw [pathOccupied_cons_some hb']
                  rw [pathOccupied_cons_some hb] at hfresh
                  exact hfresh
              | none =>
                  by_cases hbp : b' = "_parameters"
                  · have hb' : lookupKey b'
                        (entries ++ [("_parameters", .obj [] (some q))]) =
                          some (.obj [] (some q)) := by
                      rw [lookupKey_append, hb, hbp]
                      simp
                    rw [pathOccupied_cons_some hb']
                    exact pathOccupied_nilEntries _ _
                  · have hb' : lookupKey b'
                        (entries ++ [("_parameters", .obj [] (some q))]) = none := by
                      rw [lookupKey_append, hb]
                      simp [Ne.symm hbp]
                    rw [pathOccupied_cons_none hb']
  | cons bit rest ih =>
      intro node path' q hfresh hne hnp
      have hbitp : bit ≠ "_parameters" := by
        intro hcontra; exact hnp (hcontra ▸ List.mem_cons_self _ _)
      have hnp' : "_parameters" ∉ rest := fun hmem => hnp (List.mem_cons_of_mem _ hmem)
      obtain ⟨entries, fn⟩ := node
      cases hk : lookupKey bit entries with
      | some child =>
          simp only [addCPAux, hk]
          have hsome : (lookupKey bit entries).isSome := by simp [hk]
          have hrepl := lookupKey_replaceEntry_self bit (addCPAux child rest q).1 entries hsome
          cases path' with
          | nil =>
              rw [pathOccupied_nil] at hfresh ⊢
              rw [lookupKey_replaceEntry_ne bit "_parameters" _ _ (Ne.symm hbitp)]
              exact hfresh
          | cons b' r' =>
              by_cases hb : b' = bit
              · subst hb
                rw [pathOccupied_cons_some hk] at hfresh
                rw [pathOccupied_cons_some hrepl]
                have hner : rest ≠ r' := by
                  intro hcontra; exact hne (by rw [hcontra])
                exact ih child r' q hfresh hner hnp'
              · have hun := lookupKey_replaceEntry_ne bit b' (addCPAux child rest q).1 entries hb
                cases hbb : lookupKey b' entries with
                | some c =>
                    rw [hbb] at hun
                    rw [pathOccupied_cons_some hun]
                    rw [pathOccupied_cons_some hbb] at hfresh
                    exact hfresh
                | none =>
                    rw [hbb] at hun
                    rw [pathOccupied_cons_none hun]
      | none =>
          simp only [addCPAux, hk]
          cases path' with
          | nil =>
              rw [pathOccupied_nil] at hfresh ⊢
              rw [lookupKey_append]
              cases hp : lookupKey "_parameters" entries with
              | some c => rw [hp] at hfresh; simp at hfresh
              | none => simp [hp, hbitp]
          | cons b' r' =>
              by_cases hb : b' = bit
              · subst hb
                have hb' : lookupKey b' (entries ++ [(b', (addCPAux (.obj [] none) rest q).1)]) =
                    some (addCPAux (.obj [] none) rest q).1 := by
                  rw [lookupKey_append, hk]; simp
                rw [pathOccupied_cons_some hb']
                have hner : rest ≠ r' := by
                  intro hcontra; exact hne (by rw [hcontra])
                exact ih (.obj [] none) r' q (pathOccupied_nilEntries none r') hner hnp'
              · cases hbb : lookupKey b' entries with
                | some c =>
                    have hb' : lookupKey b'
                        (entries ++ [(bit, (addCPAux (.obj [] none) rest q).1)]) = some c := by
                      rw [lookupKey_append, hbb]
                    rw [pathOccupied_cons_some hb']
                    rw [pathOccupied_cons_some hbb] at hfresh
                    exact hfresh
                | none =>
                    have hb' : lookupKey b'
                        (entries ++ [(bit, (addCPAux (.obj [] none) rest q).1)]) = none := by
                      rw [lookupKey_append, hbb]
                      simp [Ne.symm hb]
                    rw [pathOccupied_cons_none hb']

/-- A retrievable payload means the walk finds an occupied terminal node. -/
theorem pathOccupied_of_getParams (path : List String) : ∀ (node : CPNode) (q : Nat),
    getParams node path = some q → pathOccupied node path = true := by
  induction path with
  | nil =>
      intro node q h
      obtain ⟨entries, fn⟩ := node
      cases hp : lookupKey "_parameters" entries with
      | none => simp [getParams, hp] at h
      | some c => simp [pathOccupied, hp]
  | cons bit rest ih =>
      intro node q h
      obtain ⟨entries, fn⟩ := node
      cases hb : lookupKey bit entries with
      | none => simp [getParams, hb] at h
      | some child =>
          simp only [getParams, hb] at h
          simp [pathOccupied, hb, ih child q h]

theorem addCommandPath_fst (node : CPNode) (p : List String) (q : Nat) :
    (addCommandPath node p q).1 = (addCPAux node p q).1 := by
  unfold addCommandPath
  cases h : (addCPAux node p q).2 <;> simp [h]

theorem addCommandPath_snd_none (node : CPNode) (p : List String) (q : Nat) :
    (addCommandPath node p q).2 = none ↔ (addCPAux node p q).2 = true := by
  unfold addCommandPath
  cases h : (addCPAux node p q).2 <;> simp [h]

theorem addCommandPath_snd_of_occupied {node : CPNode} {p : List String} (q : Nat)
    (h : pathOccupied node p = true) :
    (addCommandPath node p q).2 =
      some ("Non-unique command path: " ++ String.intercalate "/" p) := by
  have hok : (addCPAux node p q).2 = false := by
    rw [addCPAux_ok_iff, h]; rfl
  unfold addCommandPath
  simp [hok]

/-- Payloads survive any subsequent sequence of `addCommandPath` calls. -/
theorem getParams_runRegs_mono (regs : List (List String × Nat)) :
    ∀ (node : CPNode) (path : List String) (q : Nat),
      getParams node path = some q → getParams (runRegs node regs).1 path = some q := by
  induction regs with
  | nil => intro node path q h; simpa [runRegs] using h
  | cons reg rest ih =>
      intro node path q h
      obtain ⟨p, q'⟩ := reg
      have hmono : getParams (addCommandPath node p q').1 path = some q := by
        rw [addCommandPath_fst]
        exact getParams_addCPAux_mono p node path q q' h
      cases hr : (addCommandPath node p q').2 with
      | none => simpa [runRegs, hr] using ih _ path q hmono
      | some msg => simpa [runRegs, hr] using hmono

/-- Registering pairwise-distinct clean paths, none already occupied: every
call succeeds and each path afterwards retrieves exactly its own payload. -/
theorem runRegs_ok (regs : List (List String × Nat)) :
    ∀ (node : CPNode),
      (∀ r ∈ regs, pathOccupied node r.1 = false) →
      (∀ r ∈ regs, "_parameters" ∉ r.1) →
      regs.Pairwise (fun a b => a.1 ≠ b.1) →
      (runRegs node regs).2 = true ∧
        ∀ r ∈ regs, getParams (runRegs node regs).1 r.1 = some r.2 := by
  induction regs with
  | nil => intro node _ _ _; exact ⟨rfl, by simp⟩
  | cons reg rest ih =>
      intro node hfresh hclean hdist
      obtain ⟨p, q⟩ := reg
      have hoccp : pathOccupied node p = false := hfresh (p, q) (List.mem_cons_self _ _)
      have hok : (addCPAux node p q).2 = true := by
        rw [addCPAux_ok_iff, hoccp]; rfl
      have hr : (addCommandPath node p q).2 = none := (addCommandPath_snd_none node p q).mpr hok
      have hfst := addCommandPath_fst node p q
      have hcleanp : "_parameters" ∉ p := hclean (p, q) (List.mem_cons_self _ _)
      have hdisthead : ∀ r ∈ rest, p ≠ r.1 := by
        intro r hmem
        exact (List.pairwise_cons.mp hdist).1 r hmem
      have hfresh' : ∀ r ∈ rest, pathOccupied (addCommandPath node p q).1 r.1 = false := by
        intro r hmem
        rw [hfst]
        exact pathOccupied_addCPAux p node r.1 q (hfresh r (List.mem_cons_of_mem _ hmem))
          (hdisthead r hmem) hcleanp
      have hrest := ih (addCommandPath node p q).1 hfresh'
        (fun r hmem => hclean r (List.mem_cons_of_mem _ hmem))
        (List.pairwise_cons.mp hdist).2
      have hself : getParams (runRegs (addCommandPath node p q).1 rest).1 p = some q := by
        apply getParams_runRegs_mono
        rw [hfst]
        exact getParams_addCPAux_self p node q hok
      refine ⟨by simpa [runRegs, hr] using hrest.1, ?_⟩
      intro r hmem
      rcases List.mem_cons.mp hmem with hhd | htl
      · subst hhd
        simpa [runRegs, hr] using hself
      · simpa [runRegs, hr] using hrest.2 r htl

/-! ### Claims about the command registry -/

/-- **C1.** For every sequence of `addCommandPath` calls, registering the same
full segment sequence twice fails on the second call with a configuration
error naming a non-unique command path, and after that failure the first
registration's parameters payload remains attached and retrievable
unchanged.  Here: a first registration of `p` succeeds from an arbitrary
state `s`, an arbitrary further sequence `others` of calls runs, and the
repeated registration of `p` then throws the `Non-unique command path` error
naming `p` while `p` still retrieves the first call's payload `q₀`. -/
theorem c1_duplicate_path_fails (s : CPNode) (p : List String) (q₀ : Nat)
    (others : List (List String × Nat)) (q₁ : Nat)
    (h : (addCommandPath s p q₀).2 = none) :
    (addCommandPath (runRegs (addCommandPath s p q₀).1 others).1 p q₁).2 =
        some ("Non-unique command path: " ++ String.intercalate "/" p) ∧
      getParams (addCommandPath (runRegs (addCommandPath s p q₀).1 others).1 p q₁).1 p =
        some q₀ := by
  have hok : (addCPAux s p q₀).2 = true := (addCommandPath_snd_none s p q₀).mp h
  have hgp1 : getParams (addCommandPath s p q₀).1 p = some q₀ := by
    rw [addCommandPath_fst]
    exact getParams_addCPAux_self p s q₀ hok
  have hgp2 : getParams (runRegs (addCommandPath s p q₀).1 others).1 p = some q₀ :=
    getParams_runRegs_mono others _ p q₀ hgp1
  have hocc : pathOccupied (runRegs (addCommandPath s p q₀).1 others).1 p = true :=
    pathOccupied_of_getParams p _ q₀ hgp2
  refine ⟨addCommandPath_snd_of_occupied q₁ hocc, ?_⟩
  rw [addCommandPath_fst]
  exact getParams_addCPAux_mono p _ p q₀ q₁ hgp2

/-- Witness for C1 at a concrete run: register `a/b`, register `c`, then
register `a/b` again. -/
theorem c1_duplicate_path_fails_witness :
    (addCommandPath emptyRegistry ["a", "b"] 7).2 = none ∧
      ((addCommandPath
            (runRegs (addCommandPath emptyRegistry ["a", "b"] 7).1 [(["c"], 1)]).1
            ["a", "b"] 9).2 =
          some ("Non-unique command path: " ++ String.intercalate "/" ["a", "b"]) ∧
        getParams (addCommandPath
            (runRegs (addCommandPath emptyRegistry ["a", "b"] 7).1 [(["c"], 1)]).1
            ["a", "b"] 9).1 ["a", "b"] = some 7) :=
  ⟨by decide, c1_duplicate_path_fails emptyRegistry ["a", "b"] 7 [(["c"], 1)] 9 (by decide)⟩

/-! ### Prototype-chain refinement of the registry model

The walk's `pathBit in frontier` test (line 87) and the property gets of
lines 90/93 consult not only own properties but the prototype chain: every
plain `{}` node the walk creates inherits from `Object.prototype`, and every
payload closure from `Function.prototype`.  The refinement below adds the
chain.  Own properties created by the walk belong to the registry and are
modelled exactly; the pre-existing objects the chain can hand back —
`Object.prototype` itself (via the inherited `__proto__` accessor), its
methods such as `toString`, `Function.prototype` and its methods, the
primitive `length`/`name` values of a closure — are owned by the JS runtime,
not by this repository.  A walk step that descends into one of them leaves
the modelled registry fragment and is recorded as `RegStatus.outside`
instead of being given invented behavior.  Such descents are how distinct
paths can collide outside the fragment: registering `a/toString` attaches
the payload to the shared `Object.prototype.toString` function, so the
distinct path `b/toString` reaches the same shared function and throws —
which is why the refined C2 claim excludes `Object.prototype`'s keys. -/

/-- The string-keyed properties of `Object.prototype` (ECMA-262, including
the Annex B accessors), inherited by every plain object literal the walk
creates; `pathBit in frontier` is true for each of these on every plain
node. -/
def objectProtoKeys : List String :=
  ["constructor", "hasOwnProperty", "isPrototypeOf", "propertyIsEnumerable",
    "toLocaleString", "toString", "valueOf", "__proto__", "__defineGetter__",
    "__defineSetter__", "__lookupGetter__", "__lookupSetter__"]

/-- The string-keyed properties visible on a payload closure besides those
the walk itself created: the closure's own `length` and `name`, the
properties of `Function.prototype`, and transitively those of
`Object.prototype`.  `"_parameters"` is in neither this list nor
`objectProtoKeys`, so the terminal `frontier._parameters` get never resolves
through the chain inside the modelled fragment. -/
def closureChainKeys : List String :=
  ["length", "name", "apply", "arguments", "bind", "call", "caller",
    "constructor", "toString"] ++ objectProtoKeys

/-- The inherited (not walk-created) keys visible on a node: a plain `{}`
node sees `Object.prototype`'s keys, a payload closure its function chain. -/
def inheritedKeys : CPNode → List String
  | .obj _ none => objectProtoKeys
  | .obj _ (some _) => closureChainKeys

/-- Result of one `addCommandPath` call in the refined model. -/
inductive RegStatus where
  /-- the call returned normally -/
  | ok : RegStatus
  /-- the `Non-unique command path` configuration error was thrown -/
  | dup : RegStatus
  /-- the walk descended through an inherited key into a runtime-owned
  object (or primitive) outside the modelled registry fragment -/
  | outside : RegStatus
  deriving DecidableEq

/-- The walk of lines 84-100 with the prototype chain: `pathBit in frontier`
holds for an own walk-created property or an inherited key; only in the
remaining case does line 88 create a fresh `{}`. -/
def addCPAuxProto (node : CPNode) (path : List String) (parameters : Nat) :
    CPNode × RegStatus :=
  match path, node with
  | [], .obj entries fn =>
      match lookupKey "_parameters" entries with
      | some _ => (.obj entries fn, .dup)
      | none => (.obj (entries ++ [("_parameters", .obj [] (some parameters))]) fn, .ok)
  | bit :: rest, .obj entries fn =>
      match lookupKey bit entries with
      | some child =>
          let r := addCPAuxProto child rest parameters
          (.obj (replaceEntry bit r.1 entries) fn, r.2)
      | none =>
          if bit ∈ inheritedKeys (.obj entries fn) then (.obj entries fn, .outside)
          else
            let r := addCPAuxProto (.obj [] none) rest parameters
            (.obj (entries ++ [(bit, r.1)]) fn, r.2)

/-- A sequence of registrations in the refined model; a throw, or a descent
out of the modelled fragment, stops the run. -/
def runRegsProto (node : CPNode) : List (List String × Nat) → CPNode × RegStatus
  | [] => (node, .ok)
  | (p, q) :: rest =>
      let r := addCPAuxProto node p q
      match r.2 with
      | .ok => runRegsProto r.1 rest
      | .dup => (r.1, .dup)
      | .outside => (r.1, .outside)

/-- A walk through an inherited key leaves the modelled fragment: in the
program, `a/toString` descends into the shared `Object.prototype.toString`
and attaches the payload there, so registrations through inherited keys are
not certified to succeed by this development. -/
theorem addCPAuxProto_inherited_leaves_fragment :
    (addCPAuxProto emptyRegistry ["a", "toString"] 0).2 = .outside := by decide

/-- Registry states whose walk, along any path avoiding the payload key
`_parameters`, meets only plain `{}` nodes: payload closures hang only under
`_parameters` keys.  Every state built from the empty registry by
registrations free of `_parameters` segments has this shape. -/
inductive PlainTrie : CPNode → Prop where
  | mk (entries : List (String × CPNode))
      (h : ∀ k child, (k, child) ∈ entries → k ≠ "_parameters" → PlainTrie child) :
      PlainTrie (.obj entries none)

theorem plainTrie_empty : PlainTrie (.obj [] none) :=
  PlainTrie.mk [] (by simp)

theorem lookupKey_mem {k : String} {v : CPNode} :
    ∀ {l : List (String × CPNode)}, lookupKey k l = some v → (k, v) ∈ l := by
  intro l
  induction l with
  | nil => intro h; simp [lookupKey] at h
  | cons hd tl ih =>
      obtain ⟨hk, hv⟩ := hd
      intro h
      by_cases hkk : hk = k
      · subst hkk
        simp [lookupKey] at h
        simp [h]
      · simp only [lookupKey, if_neg hkk] at h
        exact List.mem_cons_of_mem _ (ih h)

theorem mem_replaceEntry {k b : String} {c v : CPNode} :
    ∀ {l : List (String × CPNode)},
      (k, c) ∈ replaceEntry b v l → (k = b ∧ c = v) ∨ (k, c) ∈ l := by
  intro l
  induction l with
  | nil => intro h; simp [replaceEntry] at h
  | cons hd tl ih =>
      obtain ⟨hk, hv⟩ := hd
      intro h
      by_cases hkk : hk = b
      · subst hkk
        simp only [replaceEntry, if_pos rfl] at h
        rcases List.mem_cons.mp h with heq | htl
        · exact Or.inl ⟨congrArg Prod.fst heq, congrArg Prod.snd heq⟩
        · rcases ih htl with hl | hr
          · exact Or.inl hl
          · exact Or.inr (List.mem_cons_of_mem _ hr)
      · simp only [replaceEntry, if_neg hkk] at h
        rcases List.mem_cons.mp h with heq | htl
        · exact Or.inr (List.mem_cons.mpr (Or.inl heq))
        · rcases ih htl with hl | hr
          · exact Or.inl hl
          · exact Or.inr (List.mem_cons_of_mem _ hr)

/-- The walk preserves the plain-trie shape: created nodes are plain `{}`
and the payload closure is only ever attached under `_parameters`. -/
theorem plainTrie_addCPAux (path : List String) :
    ∀ (node : CPNode) (q : Nat), PlainTrie node → PlainTrie (addCPAux node path q).1 := by
  induction path with
  | nil =>
      intro node q hp
      cases hp with
      | mk entries hchild =>
          cases hpar : lookupKey "_parameters" entries with
          | some c => simpa [addCPAux, hpar] using PlainTrie.mk entries hchild
          | none =>
              simp only [addCPAux, hpar]
              refine PlainTrie.mk _ ?_
              intro k child hmem hkne
              rcases List.mem_append.mp hmem with hold | hnew
              · exact hchild k child hold hkne
              · simp at hnew
                exact absurd hnew.1 hkne
  | cons bit rest ih =>
      intro node q hp
      cases hp with
      | mk entries hchild =>
          cases hk : lookupKey bit entries with
          | some child =>
              simp only [addCPAux, hk]
              refine PlainTrie.mk _ ?_
              intro k c hmem hkne
              rcases mem_replaceEntry hmem with ⟨hkb, hcv⟩ | hold
              · subst hkb
                subst hcv
                exact ih child q (hchild k child (lookupKey_mem hk) hkne)
              · exact hchild k c hold hkne
          | none =>
              simp only [addCPAux, hk]
              refine PlainTrie.mk _ ?_
              intro k c hmem hkne
              rcases List.mem_append.mp hmem with hold | hnew
              · exact hchild k c hold hkne
              · simp at hnew
                obtain ⟨hkb, hcv⟩ := hnew
                subst hkb
                subst hcv
                exact ih _ q plainTrie_empty

/-- On the plain-trie fragment, along paths whose segments are neither the
payload key nor inherited from `Object.prototype`, the refined walk agrees
with the own-property walk call by call: the `in` test of line 87 never
resolves through the chain there. -/
theorem addCPAuxProto_sim (path : List String)
    (hclean : ∀ s ∈ path, s ≠ "_parameters" ∧ s ∉ objectProtoKeys) :
    ∀ (node : CPNode) (q : Nat), PlainTrie node →
      addCPAuxProto node path q =
        ((addCPAux node path q).1,
          if (addCPAux node path q).2 = true then RegStatus.ok else RegStatus.dup) := by
  induction path with
  | nil =>
      intro node q _
      obtain ⟨entries, fn⟩ := node
      cases hpar : lookupKey "_parameters" entries with
      | some c => simp [addCPAuxProto, addCPAux, hpar]
      | none => simp [addCPAuxProto, addCPAux, hpar]
  | cons bit rest ih =>
      intro node q hp
      have hbit := hclean bit (List.mem_cons_self _ _)
      have hrest : ∀ s ∈ rest, s ≠ "_parameters" ∧ s ∉ objectProtoKeys :=
        fun s hs => hclean s (List.mem_cons_of_mem _ hs)
      cases hp with
      | mk entries hchild =>
          cases hk : lookupKey bit entries with
          | some child =>
              have hpc : PlainTrie child := hchild bit child (lookupKey_mem hk) hbit.1
              have := ih hrest child q hpc
              simp only [addCPAuxProto, addCPAux, hk, this]
          | none =>
              have hnotin : bit ∉ inheritedKeys (.obj entries none) := by
                simpa [inheritedKeys] using hbit.2
              have := ih hrest (.obj [] none) q plainTrie_empty
              simp only [addCPAuxProto, addCPAux, hk, if_neg hnotin, this]

/-- Call-by-call transfer of `addCPAuxProto_sim` to registration
sequences. -/
theorem runRegsProto_sim (regs : List (List String × Nat))
    (hclean : ∀ r ∈ regs, ∀ s ∈ r.1, s ≠ "_parameters" ∧ s ∉ objectProtoKeys) :
    ∀ node : CPNode, PlainTrie node →
      runRegsProto node regs =
        ((runRegs node regs).1,
          if (runRegs node regs).2 = true then RegStatus.ok else RegStatus.dup) := by
  induction regs with
  | nil => intro node _; simp [runRegsProto, runRegs]
  | cons reg rest ih =>
      intro node hp
      obtain ⟨p, q⟩ := reg
      have hsim := addCPAuxProto_sim p (hclean (p, q) (List.mem_cons_self _ _)) node q hp
      have hrest : ∀ r ∈ rest, ∀ s ∈ r.1, s ≠ "_parameters" ∧ s ∉ objectProtoKeys :=
        fun r hr => hclean r (List.mem_cons_of_mem _ hr)
      cases hb : (addCPAux node p q).2 with
      | true =>
          have hsnd : (addCommandPath node p q).2 = none :=
            (addCommandPath_snd_none node p q).mpr hb
          have hfst := addCommandPath_fst node p q
          have hplain' : PlainTrie (addCPAux node p q).1 := plainTrie_addCPAux p node q hp
          have hihr := ih hrest (addCPAux node p q).1 hplain'
          rw [hb] at hsim
          simp only [runRegsProto, runRegs, hsim, hsnd, hfst, if_pos rfl]
          simpa using hihr
      | false =>
          have hsnd : (addCommandPath node p q).2 =
              some ("Non-unique command path: " ++ String.intercalate "/" p) := by
            unfold addCommandPath
            simp [hb]
          have hfst := addCommandPath_fst node p q
          rw [hb] at hsim
          simp only [runRegsProto, runRegs, hsim, hsnd, hfst]
          simp

/-- **C2 (amended).** For all sequences of `addCommandPath` calls whose
segment sequences are pairwise distinct and whose segments avoid both the
reserved payload key `_parameters` and the property names inherited from
`Object.prototype` (`constructor`, `hasOwnProperty`, `isPrototypeOf`,
`propertyIsEnumerable`, `toLocaleString`, `toString`, `valueOf`,
`__proto__`, `__defineGetter__`, `__defineSetter__`, `__lookupGetter__`,
`__lookupSetter__`), every call succeeds, each registered path is
independently retrievable, and the attached accessor returns the payload
token passed at registration (payload tokens model object identity: the
accessor returns the very object, never a copy). -/
theorem c2_distinct_paths_retrievable (regs : List (List String × Nat))
    (hdist : regs.Pairwise (fun a b => a.1 ≠ b.1))
    (hclean : ∀ r ∈ regs, ∀ s ∈ r.1, s ≠ "_parameters" ∧ s ∉ objectProtoKeys) :
    (runRegsProto emptyRegistry regs).2 = .ok ∧
      ∀ r ∈ regs, getParams (runRegsProto emptyRegistry regs).1 r.1 = some r.2 := by
  have hcleanOld : ∀ r ∈ regs, "_parameters" ∉ r.1 := by
    intro r hr hmem
    exact (hclean r hr _ hmem).1 rfl
  have hold := runRegs_ok regs emptyRegistry
    (fun r _ => pathOccupied_nilEntries none r.1) hcleanOld hdist
  have hsim := runRegsProto_sim regs hclean emptyRegistry plainTrie_empty
  rw [hsim]
  refine ⟨by simp [hold.1], ?_⟩
  intro r hr
  simpa using hold.2 r hr

/-- Witness for C2 on a concrete registration sequence. -/
theorem c2_distinct_paths_retrievable_witness :
    (runRegsProto emptyRegistry [(["a"], 1), (["a", "b"], 2), (["b"], 3)]).2 = .ok ∧
      getParams (runRegsProto emptyRegistry [(["a"], 1), (["a", "b"], 2), (["b"], 3)]).1
        ["a", "b"] = some 2 := by
  have h := c2_distinct_paths_retrievable [(["a"], 1), (["a", "b"], 2), (["b"], 3)]
    (by decide) (by decide)
  exact ⟨h.1, h.2 (["a", "b"], 2) (by simp)⟩

/-- **C2 counterexample.** The claim as stated (distinct paths always
succeed) is false: the payload is stored under the ordinary property key
`_parameters`, so registering `x/_parameters` and then the distinct path `x`
makes the second call throw `Non-unique command path: x` — an execution that
stays entirely inside the modelled fragment (neither segment is an inherited
key). -/
theorem c2_distinct_paths_counterexample :
    (["x", "_parameters"] : List String) ≠ ["x"] ∧
      (runRegsProto emptyRegistry [(["x", "_parameters"], 0), (["x"], 1)]).2 = .dup := by
  constructor
  · decide
  · decide

/-! ## Error pipeline: correlation IDs (`makeID`)

`makeID(length = 5)` builds its result with
`result += characters.charAt(Math.floor(Math.random() * charactersLength))`
for `counter = 0, 1, ..., length - 1`.  `Math.random()` is modelled as an
oracle stream `draws : Nat → Fin 34` of the successive values of
`Math.floor(Math.random() * charactersLength)`: since `Math.random()` lies in
`[0, 1)` and `charactersLength = 34`, each floor lies in `[0, 34)`. -/

/-- `const characters = 'abcdefghijkmnopqrstuvwxyz023456789'` (no `l`, `1`),
34 characters. -/
def characters : String := "abcdefghijkmnopqrstuvwxyz023456789"

/-- `makeID`: the concatenation loop, one `charAt` per draw. -/
def makeID (draws : Nat → Fin 34) (length : Nat) : String :=
  ⟨(List.range length).map fun counter => characters.data.getD (draws counter).val ' '⟩

/-! ## Error pipeline: state and capture middleware -/

/-- One entry of `app.ext.errorsEphemeral` (part_000 lines 147-152). -/
structure ErrorRecord where
  id : String
  message : String
  stack : Option String
  timestamp : Nat
  deriving DecidableEq

/-- The two error sequences owned by `app.ext` (part_000 lines 68-69). -/
structure ErrState where
  errorsEphemeral : List ErrorRecord
  errorsRetained : List ErrorRecord
  deriving DecidableEq

/-- The exception object as the two error middlewares see it.  `status`,
`stack` and `liqID` are `Option`s because the corresponding JS properties may
be `undefined`; JS truthiness of `error.stack` additionally treats the empty
string as false (see `jsTruthy`). -/
structure ErrorObj where
  status : Option Nat
  message : String
  stack : Option String
  liqID : Option String
  deriving DecidableEq

/-- JS truthiness of an optional string property (absent and `''` falsy). -/
def jsTruthy : Option String → Bool
  | none => false
  | some s => s ≠ ""

/-- The eviction loop of the capture middleware (part_000 lines 153-157):
`let i = 0; while (errors.length > 1000 && i < errors.length) { errors.shift(); i += 1 }`
with `shift()` removing the first element.  The loop performs at most
`errors.length` iterations overall (each iteration needs `i` below the
shrinking length), so running it on structural fuel equal to the initial
length is exact; the fuel case `0` is then only reached with `errors = []`,
where the guard is false anyway. -/
def trimAux : Nat → List ErrorRecord → Nat → List ErrorRecord
  | 0, errors, _ => errors
  | fuel + 1, errors, i =>
      if 1000 < errors.length ∧ i < errors.length then trimAux fuel errors.tail (i + 1)
      else errors

/-- The record pushed by the capture middleware (part_000 lines 147-152). -/
def captureRecord (draws : Nat → Fin 34) (now : Nat) (e : ErrorObj) : ErrorRecord :=
  { id := makeID draws 5, message := e.message, stack := e.stack, timestamp := now }

/-- The capture (error-logging) middleware, part_000 lines 143-160: generate
the correlation ID, attach it to the exception as `liqID`, push the record
onto the ephemeral sequence, run the eviction loop, pass the exception on.
`errorsRetained` is carried through untouched. -/
def captureStage (draws : Nat → Fin 34) (now : Nat) (st : ErrState) (e : ErrorObj) :
    ErrState × ErrorObj :=
  let errorID := makeID draws 5
  let errors := st.errorsEphemeral ++ [captureRecord draws now e]
  ({ st with errorsEphemeral := trimAux errors.length errors 0 },
    { e with liqID := some errorID })

/-! ### The eviction loop in closed form -/

/-- The loop drops `min (L - 1000) (⌈(L - i) / 2⌉)` oldest elements, where
`L` is the current length: the first bound comes from the
`errors.length > 1000` conjunct, the second from `i < errors.length`. -/
theorem trimAux_eq_drop :
    ∀ (fuel : Nat) (errors : List ErrorRecord) (i : Nat), errors.length ≤ fuel →
      trimAux fuel errors i =
        errors.drop (min (errors.length - 1000) ((errors.length - i + 1) / 2)) := by
  intro fuel
  induction fuel with
  | zero =>
      intro errors i hlen
      have : errors = [] := List.eq_nil_of_length_eq_zero (Nat.le_zero.mp hlen)
      subst this
      simp [trimAux]
  | succ fuel ih =>
      intro errors i hlen
      by_cases hcond : 1000 < errors.length ∧ i < errors.length
      · have htail : errors.tail.length ≤ fuel := by
          rw [List.length_tail]; omega
        have hstep := ih errors.tail (i + 1) htail
        have htl : errors.tail.length = errors.length - 1 := List.length_tail errors
        rw [htl] at hstep
        have hmin : min (errors.length - 1000) ((errors.length - i + 1) / 2) =
            min (errors.length - 1 - 1000) ((errors.length - 1 - (i + 1) + 1) / 2) + 1 := by
          omega
        calc trimAux (fuel + 1) errors i
            = trimAux fuel errors.tail (i + 1) := by simp [trimAux, hcond]
          _ = errors.tail.drop
                (min (errors.length - 1 - 1000) ((errors.length - 1 - (i + 1) + 1) / 2)) :=
              hstep
          _ = (errors.drop 1).drop
                (min (errors.length - 1 - 1000) ((errors.length - 1 - (i + 1) + 1) / 2)) := by
              rw [List.drop_one]
          _ = errors.drop
                (min (errors.length - 1 - 1000) ((errors.length - 1 - (i + 1) + 1) / 2) + 1) := by
              rw [List.drop_drop, Nat.add_comm]
          _ = errors.drop (min (errors.length - 1000) ((errors.length - i + 1) / 2)) := by
              rw [hmin]
      · have hmin : min (errors.length - 1000) ((errors.length - i + 1) / 2) = 0 := by omega
        simp [trimAux, hcond, hmin]

/-- What the capture stage leaves in the ephemeral sequence, in closed
form. -/
theorem captureStage_ephemeral (draws : Nat → Fin 34) (now : Nat) (st : ErrState)
    (e : ErrorObj) :
    (captureStage draws now st e).1.errorsEphemeral =
      (st.errorsEphemeral ++ [captureRecord draws now e]).drop
        (min (st.errorsEphemeral.length + 1 - 1000)
          ((st.errorsEphemeral.length + 1 - 0 + 1) / 2)) := by
  have hlen : (st.errorsEphemeral ++ [captureRecord draws now e]).length =
      st.errorsEphemeral.length + 1 := by simp
  simp only [captureStage]
  rw [trimAux_eq_drop (st.errorsEphemeral ++ [captureRecord draws now e]).length
    (st.errorsEphemeral ++ [captureRecord draws now e]) 0 (Nat.le_refl _), hlen]

/-- **C3 (amended).** After the capture stage appends a record, provided the
ephemeral sequence held at most 2000 records beforehand — true of every state
the capture stage itself can produce, since it never leaves more than 1000 —
the sequence equals the suffix of the appended sequence obtained by evicting
oldest-first down to 1000: the most recently appended records in their
original relative order, `min (n + 1) 1000` of them.  (For hypothetical
pre-states longer than 2000 the loop's `i < errors.length` guard stops
eviction early and more than 1000 records remain; see the counterexample.) -/
theorem c3_capture_cap (draws : Nat → Fin 34) (now : Nat) (st : ErrState) (e : ErrorObj)
    (h : st.errorsEphemeral.length ≤ 2000) :
    (captureStage draws now st e).1.errorsEphemeral =
        (st.errorsEphemeral ++ [captureRecord draws now e]).drop
          (st.errorsEphemeral.length + 1 - 1000) ∧
      (captureStage draws now st e).1.errorsEphemeral.length =
        min (st.errorsEphemeral.length + 1) 1000 := by
  have hmin : min (st.errorsEphemeral.length + 1 - 1000)
      ((st.errorsEphemeral.length + 1 - 0 + 1) / 2) = st.errorsEphemeral.length + 1 - 1000 := by
    omega
  have heq := captureStage_ephemeral draws now st e
  rw [hmin] at heq
  refine ⟨heq, ?_⟩
  rw [heq, List.length_drop]
  simp only [List.length_append, List.length_singleton]
  omega

/-- Witness for C3 on a one-element buffer. -/
theorem c3_capture_cap_witness :
    ((⟨[⟨"", "", none, 0⟩], []⟩ : ErrState).errorsEphemeral.length ≤ 2000) ∧
      (captureStage (fun _ => (0 : Fin 34)) 5 ⟨[⟨"", "", none, 0⟩], []⟩
          ⟨none, "boom", none, none⟩).1.errorsEphemeral.length = min (1 + 1) 1000 :=
  ⟨by decide,
    (c3_capture_cap (fun _ => (0 : Fin 34)) 5 ⟨[⟨"", "", none, 0⟩], []⟩
      ⟨none, "boom", none, none⟩ (by decide)).2⟩

/-- **C3 counterexample.** The claim as stated quantifies over *every* state
of the ephemeral sequence: starting from 2001 accumulated records, the
capture stage leaves 1001 records — more than 1000 — because the eviction
loop's `i < errors.length` conjunct stops it after 1001 shifts. -/
theorem c3_capture_cap_counterexample :
    1000 < (captureStage (fun _ => (0 : Fin 34)) 0
        ⟨List.replicate 2001 ⟨"", "", none, 0⟩, []⟩
        ⟨none, "", none, none⟩).1.errorsEphemeral.length := by
  rw [captureStage_ephemeral, List.length_drop]
  simp only [List.length_append, List.length_singleton, List.length_replicate]
  omega

/-! ### Claims about `makeID` -/

theorem characters_data_length : characters.data.length = 34 := rfl

theorem characters_nodup : characters.data.Nodup := by decide

/-- **C4 (amended).** Every generated correlation ID is a string of exactly 5
characters drawn only from the alphabet `abcdefghijkmnopqrstuvwxyz023456789`;
two generated IDs are distinct precisely when the underlying random draws
differ at some position below 5 — the code performs no uniqueness check, so
distinctness is not guaranteed when the random source repeats (see the
counterexample). -/
theorem makeID_data (d : Nat → Fin 34) (n : Nat) :
    (makeID d n).data = (List.range n).map fun counter =>
      characters.data.getD (d counter).val ' ' := rfl

theorem c4_makeID_alphabet_and_distinctness (d d' : Nat → Fin 34) :
    (makeID d 5).length = 5 ∧
      (∀ c ∈ (makeID d 5).data, c ∈ characters.data) ∧
      (makeID d 5 = makeID d' 5 ↔ ∀ i < 5, d i = d' i) := by
  refine ⟨rfl, ?_, ?_, ?_⟩
  case refine_1 =>
    intro c hc
    rw [makeID_data] at hc
    obtain ⟨i, hi, hrfl⟩ := List.mem_map.mp hc
    have hlt : (d i).val < characters.data.length := by
      rw [characters_data_length]; exact (d i).isLt
    rw [← hrfl, List.getD_eq_getElem _ _ hlt]
    exact List.getElem_mem hlt
  case refine_2 =>
    intro h i hi
    have hdata := congrArg String.data h
    rw [makeID_data, makeID_data] at hdata
    have hpt := congrArg (fun l : List Char => l.getD i ' ') hdata
    have hlen : i < ((List.range 5).map
        (fun c => characters.data.getD (d c).val ' ')).length := by simpa using hi
    have hlen' : i < ((List.range 5).map
        (fun c => characters.data.getD (d' c).val ' ')).length := by simpa using hi
    simp only at hpt
    rw [List.getD_eq_getElem _ _ hlen, List.getD_eq_getElem _ _ hlen'] at hpt
    simp only [List.getElem_map, List.getElem_range] at hpt
    have hlt : (d i).val < characters.data.length := by
      rw [characters_data_length]; exact (d i).isLt
    have hlt' : (d' i).val < characters.data.length := by
      rw [characters_data_length]; exact (d' i).isLt
    rw [List.getD_eq_getElem _ _ hlt, List.getD_eq_getElem _ _ hlt'] at hpt
    exact Fin.ext (characters_nodup.getElem_inj_iff.mp hpt)
  case refine_3 =>
    intro h
    apply String.ext
    rw [makeID_data, makeID_data]
    apply List.map_congr_left
    intro a ha
    rw [h a (List.mem_range.mp ha)]

/-- Witness for C4 at a concrete draw stream. -/
theorem c4_makeID_alphabet_witness :
    (makeID (fun _ => (0 : Fin 34)) 5).length = 5 ∧
      'a' ∈ characters.data :=
  ⟨(c4_makeID_alphabet_and_distinctness (fun _ => (0 : Fin 34)) (fun _ => (0 : Fin 34))).1,
    (c4_makeID_alphabet_and_distinctness (fun _ => (0 : Fin 34))
        (fun _ => (0 : Fin 34))).2.1 'a' (by decide)⟩

/-- **C4 counterexample.** The claim as stated asserts that the IDs generated
for any two exception-carrying requests are distinct; but `makeID` performs
no uniqueness check, so two requests whose `Math.random` draw sequences
coincide on the consumed prefix (here: two genuinely different streams that
agree below position 5) receive the same correlation ID `aaaaa`. -/
theorem c4_makeID_distinctness_counterexample :
    makeID (fun _ => (0 : Fin 34)) 5 =
        makeID (fun i => if i < 5 then (0 : Fin 34) else 1) 5 ∧
      (fun _ => (0 : Fin 34)) ≠ (fun i => if i < 5 then (0 : Fin 34) else 1) :=
  ⟨by decide, fun h => absurd (congrFun h 5) (by decide)⟩

/-! ## Error pipeline: present (error-response) middleware -/

/-- The `statusText` lookup table (part_000 lines 229-271), as a partial map:
`statusText[status]` is `undefined` for any status not listed (e.g. 419). -/
def statusText : Nat → Option String
  | 400 => some "BadRequest"
  | 401 => some "Unauthorized"
  | 402 => some "PaymentRequired"
  | 403 => some "Forbidden"
  | 404 => some "NotFound"
  | 405 => some "MethodNotAllowed"
  | 406 => some "NotAcceptable"
  | 407 => some "ProxyAuthenticationRequired"
  | 408 => some "RequestTimeout"
  | 409 => some "Conflict"
  | 410 => some "Gone"
  | 411 => some "LengthRequired"
  | 412 => some "PreconditionFailed"
  | 413 => some "PayloadTooLarge"
  | 414 => some "URITooLong"
  | 415 => some "UnsupportedMediaType"
  | 416 => some "RangeNotSatisfiable"
  | 417 => some "ExpectationFailed"
  | 418 => some "ImATeapot"
  | 421 => some "MisdirectedRequest"
  | 422 => some "UnprocessableEntity"
  | 423 => some "Locked"
  | 424 => some "FailedDependency"
  | 425 => some "TooEarly"
  | 426 => some "UpgradeRequired"
  | 428 => some "PreconditionRequired"
  | 429 => some "TooManyRequests"
  | 431 => some "RequestHeaderFieldsTooLarge"
  | 451 => some "UnavailableForLegalReasons"
  | 500 => some "InternalServerError"
  | 501 => some "NotImplemented"
  | 502 => some "BadGateway"
  | 503 => some "ServiceUnavailable"
  | 504 => some "GatewayTimeout"
  | 505 => some "HTTPVersionNotSupported"
  | 506 => some "VariantAlsoNegotiates"
  | 507 => some "InsufficientStorage"
  | 508 => some "LoopDetected"
  | 509 => some "BandwidthLimitExceeded"
  | 510 => some "NotExtended"
  | 511 => some "NetworkAuthenticationRequired"
  | _ => none

/-- JS template interpolation of a possibly-`undefined` value: `undefined`
prints as the literal text `undefined`. -/
def jsUndef : Option String → String
  | none => "undefined"
  | some s => s

/-- `const status = error.status || 500`: `undefined` and the falsy number
`0` both select the 500 default. -/
def effStatus : Option Nat → Nat
  | none => 500
  | some s => if s = 0 then 500 else s

/-- The `errorSource` chain of conditionals (part_000 lines 168-172). -/
def errorSource (status : Nat) : String :=
  if 400 ≤ status ∧ status < 500 then "Client"
  else if 500 ≤ status ∧ status < 600 then "Server"
  else "Unknown"

/-- The first part of the composed message (part_000 line 173):
`<error>${errorSource} error ${status}: ${statusText[status]}<rst>\n\n<em>${error.message}<rst>\n\n`. -/
def composeHeader (e : ErrorObj) : String :=
  let status := effStatus e.status
  "<error>" ++ errorSource status ++ " error " ++ toString status ++ ": " ++
    jsUndef (statusText status) ++ "<rst>\n\n<em>" ++ e.message ++ "<rst>\n\n"

/-- The full composed message (part_000 lines 173-180): append the raw stack
when `error.liqID === undefined && error.stack`, else the
`error ref: <code>/server/errors/...` pointer (interpolating `undefined`
when `liqID` is absent). -/
def composeMsg (e : ErrorObj) : String :=
  if e.liqID = none ∧ jsTruthy e.stack then composeHeader e ++ e.stack.getD ""
  else composeHeader e ++ ("error ref: <code>/server/errors/" ++ jsUndef e.liqID ++ "<rst>")

/-! ### `msg.replaceAll(/<[a-z]+>/g, '')`

A single left-to-right scan removing every non-overlapping leftmost match of
`<[a-z]+>`: a `<`, one or more lowercase ASCII letters, then `>`.  Because
`[a-z]+` can only end at a letter, greedy matching without backtracking is
exact here: if the maximal letter run after `<` is not followed by `>`, no
shorter run is either. -/

/-- After at least one `[a-z]` has been consumed: keep consuming letters
until `>` (match, return the rest) or a non-letter (no match). -/
def scanTagRest : List Char → Option (List Char)
  | [] => none
  | c :: rest => if c = '>' then some rest else if c.isLower then scanTagRest rest else none

/-- Try to match `[a-z]+>` at the position just after a `<`. -/
def scanTag : List Char → Option (List Char)
  | [] => none
  | c :: rest => if c.isLower then scanTagRest rest else none

/-- The scan, on structural fuel: every step either consumes the matched tag
(at least two characters) or emits one character, so fuel equal to the input
length is exact; the fuel-0 case is only reached on the empty remainder. -/
def stripTagsAux : Nat → List Char → List Char
  | 0, rest => rest
  | _ + 1, [] => []
  | fuel + 1, c :: rest =>
      if c = '<' then
        match scanTag rest with
        | some rest' => stripTagsAux fuel rest'
        | none => c :: stripTagsAux fuel rest
      else c :: stripTagsAux fuel rest

def stripTags (s : String) : String := ⟨stripTagsAux s.data.length s.data⟩

/-- Where a response can end up after the present middleware. -/
inductive Outcome where
  /-- `if (res.headersSent) return next(error)`: deferred before any status
  was chosen. -/
  | deferred (e : ErrorObj) : Outcome
  /-- `if (req.accepts('html')) next(error)`: deferred to default error
  handling, after `res.status(status)` has already run. -/
  | deferredAfterStatus (status : Nat) (e : ErrorObj) : Outcome
  /-- `res.setHeader('content-type', ...); res.send(msg)`. -/
  | sent (contentType : String) (body : String) (status : Nat) : Outcome
  deriving DecidableEq

/-- The present (error-response) middleware, part_000 lines 162-195. -/
def presentStage (accepts : String → Bool) (headersSent : Bool) (e : ErrorObj) : Outcome :=
  if headersSent then .deferred e
  else
    let status := effStatus e.status
    let msg := composeMsg e
    if accepts "html" then .deferredAfterStatus status e
    else if accepts "text/terminal" then .sent "text/terminal" msg status
    else .sent "text/plain" (stripTags msg) status

/-- Both error middlewares in order, as installed by `appInit`: capture
mutates the error state and attaches the correlation ID, present turns the
decorated exception into a response outcome. -/
def errorPipeline (draws : Nat → Fin 34) (now : Nat) (accepts : String → Bool)
    (headersSent : Bool) (st : ErrState) (e : ErrorObj) : ErrState × Outcome :=
  let r := captureStage draws now st e
  (r.1, presentStage accepts headersSent r.2)

/-! ### Claims about the present middleware -/

/-- **C5.** For every exception reaching the present stage with headers not
yet sent: a client accepting html is deferred to default error delivery; a
client not accepting html but accepting text/terminal receives the composed
message with its semantic markup tags intact under content-type
`text/terminal`; every other client receives the same message with all
markup tags stripped by `replaceAll(/<[a-z]+>/g, '')`, served with
content-type `text/plain`. -/
theorem c5_content_negotiation (accepts : String → Bool) (e : ErrorObj) :
    (accepts "html" = true →
        presentStage accepts false e = .deferredAfterStatus (effStatus e.status) e) ∧
      (accepts "html" = false → accepts "text/terminal" = true →
        presentStage accepts false e =
          .sent "text/terminal" (composeMsg e) (effStatus e.status)) ∧
      (accepts "html" = false → accepts "text/terminal" = false →
        presentStage accepts false e =
          .sent "text/plain" (stripTags (composeMsg e)) (effStatus e.status)) := by
  refine ⟨fun h1 => ?_, fun h1 h2 => ?_, fun h1 h2 => ?_⟩
  · simp [presentStage, h1]
  · simp [presentStage, h1, h2]
  · simp [presentStage, h1, h2]

/-- Witness for C5: a terminal client with a 404. -/
theorem c5_content_negotiation_witness :
    (fun s => decide (s = "text/terminal")) "html" = false ∧
      (fun s => decide (s = "text/terminal")) "text/terminal" = true ∧
      presentStage (fun s => decide (s = "text/terminal")) false
          ⟨some 404, "oops", none, some "abc02"⟩ =
        .sent "text/terminal" (composeMsg ⟨some 404, "oops", none, some "abc02"⟩)
          (effStatus (some 404)) :=
  ⟨by decide, by decide,
    (c5_content_negotiation (fun s => decide (s = "text/terminal"))
        ⟨some 404, "oops", none, some "abc02"⟩).2.1 (by decide) (by decide)⟩

/-- **C6 (amended).** For every exception reaching the present stage: if the
response has already begun the stage defers to default delivery; otherwise
the response status is the exception-declared status (500 when the
declaration is absent or the falsy `0`), the message classifies it Client for
4xx, Server for 5xx, Unknown otherwise, and embeds the status name from the
`statusText` table when the status is listed (the literal text `undefined`
otherwise); if the exception carries a correlation ID the body contains a
pointer reference to `/server/errors/{id}` instead of the raw stack; if it
carries no ID but a truthy stack the body falls back to including the raw
stack; an exception with no ID and no (or empty) stack gets the pointer
reference interpolated with `undefined`. -/
theorem c6_present_status_and_body (accepts : String → Bool) (e : ErrorObj) :
    (presentStage accepts true e = .deferred e) ∧
      (effStatus none = 500 ∧ effStatus (some 0) = 500 ∧
        ∀ n : Nat, n ≠ 0 → effStatus (some n) = n) ∧
      (∀ s : Nat,
        (400 ≤ s ∧ s < 500 → errorSource s = "Client") ∧
          (500 ≤ s ∧ s < 600 → errorSource s = "Server") ∧
          (s < 400 ∨ 600 ≤ s → errorSource s = "Unknown")) ∧
      (∀ id, e.liqID = some id →
        composeMsg e =
          composeHeader e ++ ("error ref: <code>/server/errors/" ++ id ++ "<rst>")) ∧
      (e.liqID = none → jsTruthy e.stack = true →
        composeMsg e = composeHeader e ++ e.stack.getD "") ∧
      (e.liqID = none → jsTruthy e.stack = false →
        composeMsg e =
          composeHeader e ++ ("error ref: <code>/server/errors/undefined<rst>")) := by
  refine ⟨by simp [presentStage], ⟨rfl, rfl, fun n hn => by simp [effStatus, hn]⟩, ?_, ?_, ?_, ?_⟩
  case refine_1 =>
    intro s
    refine ⟨fun h => ?_, fun h => ?_, fun h => ?_⟩
    · simp [errorSource, h]
    · have h1 : ¬(400 ≤ s ∧ s < 500) := by omega
      simp [errorSource, h1, h]
    · have h1 : ¬(400 ≤ s ∧ s < 500) := by omega
      have h2 : ¬(500 ≤ s ∧ s < 600) := by omega
      simp [errorSource, h1, h2]
  case refine_2 =>
    intro id hid
    simp [composeMsg, hid, jsUndef]
  case refine_3 =>
    intro hid hstack
    simp [composeMsg, hid, hstack]
  case refine_4 =>
    intro hid hstack
    simp [composeMsg, hid, hstack, jsUndef]

/-- Witness for C6: an already-begun response defers, and a 404 carrying
correlation ID `abc02` gets the pointer body. -/
theorem c6_present_status_and_body_witness :
    presentStage (fun _ => false) true ⟨some 404, "m", none, some "abc02"⟩ =
        .deferred ⟨some 404, "m", none, some "abc02"⟩ ∧
      composeMsg ⟨some 404, "m", none, some "abc02"⟩ =
        composeHeader ⟨some 404, "m", none, some "abc02"⟩ ++
          ("error ref: <code>/server/errors/" ++ "abc02" ++ "<rst>") :=
  ⟨(c6_present_status_and_body (fun _ => false) ⟨some 404, "m", none, some "abc02"⟩).1,
    (c6_present_status_and_body (fun _ => false)
        ⟨some 404, "m", none, some "abc02"⟩).2.2.2.1 "abc02" rfl⟩

/-- **C6 counterexample.** The claim as stated promises a human-readable
status name and a raw-stack fallback for ID-less exceptions.  A plain client
sending status 419 with no stack and no correlation ID instead receives the
literal text `undefined` in place of a status name and a pointer reference
to `/server/errors/undefined` in place of a stack. -/
theorem c6_present_counterexample :
    presentStage (fun _ => false) false ⟨some 419, "boom", none, none⟩ =
      .sent "text/plain"
        "Client error 419: undefined\n\nboom\n\nerror ref: /server/errors/undefined"
        419 := by
  decide

/-! ### Frame effect of the pipeline on the retained sequence -/

/-- **C10.** For every request-phase exception processed by the two
error-pipeline stages, the retained error sequence `errorsRetained` is left
unchanged: the pipeline appends records only to `errorsEphemeral`. -/
theorem c10_retained_untouched (draws : Nat → Fin 34) (now : Nat)
    (accepts : String → Bool) (headersSent : Bool) (st : ErrState) (e : ErrorObj) :
    (errorPipeline draws now accepts headersSent st e).1.errorsRetained =
      st.errorsRetained := rfl

/-! ## Server settings (`getServerSettings`, defaults.js lines 23-39) -/

/-- A parsed `server-settings.yaml` document.  `registries` is optional so
that the empty document `{}` (what `readFJSON(...) || {}` yields for a falsy
parse) is distinguishable from the created default `{registries: []}`. -/
structure SettingsDoc where
  registries : Option (List String)
  deriving DecidableEq

/-- A file-system fragment for the settings file: parsed YAML content per
existing path; an entry `(p, none)` is an existing file whose parse is falsy
(`readFJSON` returned `null`/`undefined`); absent paths have no entry.
`writeFJSON` on an absent path appends the entry. -/
abbrev FileSys : Type := List (String × Option SettingsDoc)

/-- `getServerSettings` (defaults.js lines 23-39): read
`server-settings.yaml` under the settings home if it exists (falling back to
`{}` for a falsy parse), else create it containing `{registries: []}` and
return that value.

Modelled from the spec: `getLiqHome` (and the `lib/get-server-settings`
variant `appInit` imports, which takes the home as its argument) is not under
`src/`; per the spec the settings file lives under the configured
`serverHome` directory, so the home directory is taken as a parameter. -/
def getServerSettings (home : String) (fs : FileSys) : SettingsDoc × FileSys :=
  let serverSettingsPath := home ++ "/server-settings.yaml"
  match List.lookup serverSettingsPath fs with
  | some content => (content.getD ⟨none⟩, fs)
  | none =>
      let serverSettings : SettingsDoc := ⟨some []⟩
      (serverSettings, fs ++ [(serverSettingsPath, some serverSettings)])

/-- **C8.** At startup the server settings are read from
`{serverHome}/server-settings.yaml`; if that file is absent it is created
containing `{registries: []}` and that value is returned, and if it is
present its (parsed) content is returned with the file system untouched. -/
theorem c8_server_settings (home : String) (fs : FileSys) :
    (List.lookup (home ++ "/server-settings.yaml") fs = none →
        getServerSettings home fs =
          (⟨some []⟩, fs ++ [(home ++ "/server-settings.yaml", some ⟨some []⟩)])) ∧
      (∀ content, List.lookup (home ++ "/server-settings.yaml") fs = some content →
        getServerSettings home fs = (content.getD ⟨none⟩, fs)) := by
  constructor
  · intro h
    simp [getServerSettings, h]
  · intro content h
    simp [getServerSettings, h]

/-- Witness for C8: an empty server home gets the default settings file. -/
theorem c8_server_settings_witness :
    getServerSettings "/my/home" [] =
      (⟨some []⟩, [("/my/home" ++ "/server-settings.yaml", some ⟨some []⟩)]) :=
  (c8_server_settings "/my/home" []).1 rfl

/-! ## Bootstrap orchestrator (`appInit`)

`appInit` is modelled by the ordered trace of its effectful steps, in source
order (part_000 lines 50-213).  The handler/plugin loading internals
(`registerHandlers`, `loadPlugins`, `loadPlugin`, `initServerSettings`, the
`DependencyRunner` and the contents of `app.ext.pendingHandlers` /
`app.ext.setupMethods`) live in modules not under `src/`; the trace records
the calls `appInit` makes into them, with `nPending` and `nSetup` the number
of pending-handler registrations and setup methods those loaders
accumulated.  `reporter.log` calls are pure logging and are not recorded. -/

/-- One effectful step of `appInit`. -/
inductive Ev where
  /-- `getServerSettings(serverHome)` while building `app.ext` (line 78). -/
  | readServerSettings : Ev
  /-- the conditional `local-settings.yaml` read (lines 104-107). -/
  | readLocalSettings : Ev
  /-- `registerHandlers(app, { name: 'core', ... })` (line 122). -/
  | registerCoreHandlers : Ev
  /-- `loadPlugins(app, options)` over the conventional directory (line 129). -/
  | loadCorePlugins : Ev
  /-- the `package.json` read for the i-th explicit plugin dir (line 133). -/
  | readPluginPackage (i : Nat) : Ev
  /-- `loadPlugin({...})` for the i-th explicit plugin dir (line 134). -/
  | loadPluginPath (i : Nat) : Ev
  /-- invocation of the i-th entry of `app.ext.pendingHandlers` (line 139). -/
  | invokePending (i : Nat) : Ev
  /-- `app.use` of the capture error middleware (line 143). -/
  | installCaptureMw : Ev
  /-- `app.use` of the present error middleware (line 162). -/
  | installPresentMw : Ev
  /-- `initServerSettings({...})` (line 197). -/
  | initServerSettings : Ev
  /-- `depRunner.enqueue` of the i-th entry of `app.ext.setupMethods`
  (line 201). -/
  | enqueueSetup (i : Nat) : Ev
  /-- `depRunner.complete()` (line 203). -/
  | sealScheduler : Ev
  /-- `await depRunner.await()` (line 204). -/
  | awaitScheduler : Ev
  /-- `fs.writeFile(apiSpecFile, JSON.stringify(app.ext.handlers, ...))`
  (line 209). -/
  | writeAPISpec (path : String) : Ev
  deriving DecidableEq

/-- The bootstrap options `appInit` destructures that the trace depends on;
explicit plugin directories are counted rather than named. -/
structure InitOptions where
  apiSpecPath : Option String
  noAPIUpdate : Bool
  nPluginPaths : Nat
  serverHome : Option String
  skipCorePlugins : Bool

/-- The effect trace of a successful `appInit` run, in source order. -/
def initTraceEvents (o : InitOptions) (home : String) (nPending nSetup : Nat) : List Ev :=
  [.readServerSettings, .readLocalSettings, .registerCoreHandlers]
    ++ ((if o.skipCorePlugins then [] else [.loadCorePlugins])
    ++ (((List.range o.nPluginPaths).flatMap fun i => [.readPluginPackage i, .loadPluginPath i])
    ++ ((List.range nPending).map .invokePending
    ++ ([.installCaptureMw, .installPresentMw, .initServerSettings]
    ++ ((List.range nSetup).map .enqueueSetup
    ++ ([.sealScheduler, .awaitScheduler]
    ++ (if o.noAPIUpdate then []
        else [.writeAPISpec (o.apiSpecPath.getD (home ++ "/core-api.json"))])))))))

/-- `appInit`: `if (!serverHome) throw new Error(...)` guards everything
(line 50, before any effect); a missing or empty `serverHome` is falsy. -/
def appInitTrace (o : InitOptions) (nPending nSetup : Nat) : Except String (List Ev) :=
  match o.serverHome with
  | none => .error "No 'serverHome' defined; bailing out."
  | some home =>
      if home = "" then .error "No 'serverHome' defined; bailing out."
      else .ok (initTraceEvents o home nPending nSetup)

/-- **C7.** For every bootstrap option set in which `serverHome` is missing,
`appInit` fails with the fatal `No 'serverHome' defined` error and returns
no partial application: the run produces no effects at all — no handlers
registered, no plugins loaded, no files written. -/
theorem c7_missing_serverHome (o : InitOptions) (nPending nSetup : Nat)
    (h : o.serverHome = none) :
    appInitTrace o nPending nSetup = .error "No 'serverHome' defined; bailing out." := by
  simp [appInitTrace, h]

/-- Witness for C7. -/
theorem c7_missing_serverHome_witness :
    appInitTrace ⟨none, false, 0, none, false⟩ 2 2 =
      .error "No 'serverHome' defined; bailing out." :=
  c7_missing_serverHome ⟨none, false, 0, none, false⟩ 2 2 rfl

/-! ### Ordering facts about the bootstrap trace -/

theorem sublist_cons_append {α : Type} {x : α} {l seg rest : List α} (hx : x ∈ seg)
    (hl : l.Sublist rest) : (x :: l).Sublist (seg ++ rest) := by
  simpa using (List.singleton_sublist.mpr hx).append hl

theorem sublist_skip {α : Type} {l : List α} (seg : List α) {rest : List α}
    (hl : l.Sublist rest) : l.Sublist (seg ++ rest) := by
  simpa using (List.nil_sublist seg).append hl

theorem sublist_seg {α : Type} {l seg : List α} (rest : List α) (h : l.Sublist seg) :
    l.Sublist (seg ++ rest) :=
  h.trans (List.sublist_append_left seg rest)

theorem pair_sublist_range {i j n : Nat} (hij : i < j) (hj : j < n) :
    [i, j].Sublist (List.range n) := by
  induction n with
  | zero => omega
  | succ n ih =>
      rw [List.range_succ]
      by_cases h : j < n
      · exact sublist_seg _ (ih h)
      · have hj' : j = n := by omega
        subst hj'
        have h1 : [i].Sublist (List.range j) :=
          List.singleton_sublist.mpr (List.mem_range.mpr hij)
        simpa using h1.append (List.Sublist.refl [j])

theorem count_map_range (f : Nat → Ev) (hf : ∀ a b, f a = f b → a = b) (n i : Nat) :
    ((List.range n).map f).count (f i) = if i < n then 1 else 0 := by
  induction n with
  | zero => simp
  | succ n ih =>
      rw [List.range_succ, List.map_append, List.count_append, ih]
      by_cases h : i = n
      · subst h
        simp
      · have hne : ¬ f n = f i := fun hc => h (hf _ _ hc).symm
        by_cases h2 : i < n
        · have h3 : i < n + 1 := by omega
          simp [h2, h3, List.count_singleton', hne]
        · have h3 : ¬ i < n + 1 := by omega
          simp [h2, h3, List.count_singleton', hne]

/-- **C9.** During one bootstrap (with a valid `serverHome`): `appInit`
produces exactly the source-ordered effect trace; every deferred pending
handler registration is invoked exactly once, in enqueue order, after all
core and plugin handler loading completes; afterwards every accumulated
setup action is enqueued (exactly once) into the scheduler, the scheduler is
sealed, the bootstrap awaits its completion, and only then is the merged
handler manifest serialized — and not at all when `noAPIUpdate` is set. -/
theorem c9_bootstrap_ordering (o : InitOptions) (home : String) (nPending nSetup : Nat)
    (hhome : o.serverHome = some home) (hne : home ≠ "") :
    appInitTrace o nPending nSetup = .ok (initTraceEvents o home nPending nSetup) ∧
      (∀ i, i < nPending →
        (initTraceEvents o home nPending nSetup).count (.invokePending i) = 1) ∧
      (∀ i j, i < j → j < nPending →
        [Ev.invokePending i, Ev.invokePending j].Sublist
          (initTraceEvents o home nPending nSetup)) ∧
      (∀ i, i < nPending →
        [Ev.registerCoreHandlers, Ev.invokePending i].Sublist
          (initTraceEvents o home nPending nSetup)) ∧
      (o.skipCorePlugins = false → ∀ i, i < nPending →
        [Ev.loadCorePlugins, Ev.invokePending i].Sublist
          (initTraceEvents o home nPending nSetup)) ∧
      (∀ jdx, jdx < o.nPluginPaths → ∀ i, i < nPending →
        [Ev.loadPluginPath jdx, Ev.invokePending i].Sublist
          (initTraceEvents o home nPending nSetup)) ∧
      (∀ k, k < nSetup →
        (initTraceEvents o home nPending nSetup).count (.enqueueSetup k) = 1) ∧
      (∀ i, i < nPending → ∀ k, k < nSetup →
        [Ev.invokePending i, Ev.enqueueSetup k].Sublist
          (initTraceEvents o home nPending nSetup)) ∧
      (∀ k, k < nSetup →
        [Ev.enqueueSetup k, Ev.sealScheduler, Ev.awaitScheduler].Sublist
          (initTraceEvents o home nPending nSetup)) ∧
      [Ev.sealScheduler, Ev.awaitScheduler].Sublist
        (initTraceEvents o home nPending nSetup) ∧
      (o.noAPIUpdate = false →
        [Ev.awaitScheduler,
          Ev.writeAPISpec (o.apiSpecPath.getD (home ++ "/core-api.json"))].Sublist
            (initTraceEvents o home nPending nSetup)) ∧
      (o.noAPIUpdate = true →
        ∀ p, Ev.writeAPISpec p ∉ initTraceEvents o home nPending nSetup) := by
  refine ⟨by simp [appInitTrace, hhome, hne], ?_, ?_, ?_, ?_, ?_, ?_, ?_, ?_, ?_, ?_, ?_⟩
  case refine_1 =>
    intro i hi
    unfold initTraceEvents
    simp only [List.count_append]
    rw [count_map_range Ev.invokePending (fun a b h => Ev.invokePending.inj h) nPending i]
    have hA : ([Ev.readServerSettings, Ev.readLocalSettings,
        Ev.registerCoreHandlers] : List Ev).count (Ev.invokePending i) = 0 := by
      simp [List.count_eq_zero]
    have hB : (if o.skipCorePlugins then ([] : List Ev)
        else [Ev.loadCorePlugins]).count (Ev.invokePending i) = 0 := by
      cases o.skipCorePlugins <;> simp [List.count_eq_zero]
    have hC : ((List.range o.nPluginPaths).flatMap fun jdx =>
        [Ev.readPluginPackage jdx, Ev.loadPluginPath jdx]).count (Ev.invokePending i) = 0 := by
      simp [List.count_eq_zero, List.mem_flatMap]
    have hD : ([Ev.installCaptureMw, Ev.installPresentMw,
        Ev.initServerSettings] : List Ev).count (Ev.invokePending i) = 0 := by
      simp [List.count_eq_zero]
    have hS : ((List.range nSetup).map Ev.enqueueSetup).count (Ev.invokePending i) = 0 := by
      simp [List.count_eq_zero]
    have hE : ([Ev.sealScheduler, Ev.awaitScheduler] : List Ev).count (Ev.invokePending i) = 0 := by
      simp [List.count_eq_zero]
    have hW : (if o.noAPIUpdate then ([] : List Ev)
        else [Ev.writeAPISpec (o.apiSpecPath.getD (home ++ "/core-api.json"))]).count
          (Ev.invokePending i) = 0 := by
      cases o.noAPIUpdate <;> simp [List.count_eq_zero]
    rw [hA, hB, hC, hD, hS, hE, hW]
    simp [hi]
  case refine_2 =>
    intro i j hij hj
    unfold initTraceEvents
    apply sublist_skip
    apply sublist_skip
    apply sublist_skip
    apply sublist_seg
    have := (pair_sublist_range hij hj).map Ev.invokePending
    simpa using this
  case refine_3 =>
    intro i hi
    unfold initTraceEvents
    apply sublist_cons_append (by simp)
    apply sublist_skip
    apply sublist_skip
    apply sublist_cons_append
      (List.mem_map.mpr ⟨i, List.mem_range.mpr hi, rfl⟩)
    exact List.nil_sublist _
  case refine_4 =>
    intro hskip i hi
    unfold initTraceEvents
    rw [hskip]
    apply sublist_skip
    apply sublist_cons_append (by simp)
    apply sublist_skip
    apply sublist_cons_append
      (List.mem_map.mpr ⟨i, List.mem_range.mpr hi, rfl⟩)
    exact List.nil_sublist _
  case refine_5 =>
    intro jdx hjdx i hi
    unfold initTraceEvents
    apply sublist_skip
    apply sublist_skip
    apply sublist_cons_append
      (List.mem_flatMap.mpr ⟨jdx, List.mem_range.mpr hjdx, by simp⟩)
    apply sublist_cons_append
      (List.mem_map.mpr ⟨i, List.mem_range.mpr hi, rfl⟩)
    exact List.nil_sublist _
  case refine_6 =>
    intro k hk
    unfold initTraceEvents
    simp only [List.count_append]
    rw [count_map_range Ev.enqueueSetup (fun a b h => Ev.enqueueSetup.inj h) nSetup k]
    have hA : ([Ev.readServerSettings, Ev.readLocalSettings,
        Ev.registerCoreHandlers] : List Ev).count (Ev.enqueueSetup k) = 0 := by
      simp [List.count_eq_zero]
    have hB : (if o.skipCorePlugins then ([] : List Ev)
        else [Ev.loadCorePlugins]).count (Ev.enqueueSetup k) = 0 := by
      cases o.skipCorePlugins <;> simp [List.count_eq_zero]
    have hC : ((List.range o.nPluginPaths).flatMap fun jdx =>
        [Ev.readPluginPackage jdx, Ev.loadPluginPath jdx]).count (Ev.enqueueSetup k) = 0 := by
      simp [List.count_eq_zero, List.mem_flatMap]
    have hP : ((List.range nPending).map Ev.invokePending).count (Ev.enqueueSetup k) = 0 := by
      simp [List.count_eq_zero]
    have hD : ([Ev.installCaptureMw, Ev.installPresentMw,
        Ev.initServerSettings] : List Ev).count (Ev.enqueueSetup k) = 0 := by
      simp [List.count_eq_zero]
    have hE : ([Ev.sealScheduler, Ev.awaitScheduler] : List Ev).count (Ev.enqueueSetup k) = 0 := by
      simp [List.count_eq_zero]
    have hW : (if o.noAPIUpdate then ([] : List Ev)
        else [Ev.writeAPISpec (o.apiSpecPath.getD (home ++ "/core-api.json"))]).count
          (Ev.enqueueSetup k) = 0 := by
      cases o.noAPIUpdate <;> simp [List.count_eq_zero]
    rw [hA, hB, hC, hP, hD, hE, hW]
    simp [hk]
  case refine_7 =>
    intro i hi k hk
    unfold initTraceEvents
    apply sublist_skip
    apply sublist_skip
    apply sublist_skip
    apply sublist_cons_append
      (List.mem_map.mpr ⟨i, List.mem_range.mpr hi, rfl⟩)
    apply sublist_skip
    apply sublist_cons_append
      (List.mem_map.mpr ⟨k, List.mem_range.mpr hk, rfl⟩)
    exact List.nil_sublist _
  case refine_8 =>
    intro k hk
    unfold initTraceEvents
    apply sublist_skip
    apply sublist_skip
    apply sublist_skip
    apply sublist_skip
    apply sublist_skip
    apply sublist_cons_append
      (List.mem_map.mpr ⟨k, List.mem_range.mpr hk, rfl⟩)
    exact sublist_seg _ (List.Sublist.refl _)
  case refine_9 =>
    unfold initTraceEvents
    apply sublist_skip
    apply sublist_skip
    apply sublist_skip
    apply sublist_skip
    apply sublist_skip
    apply sublist_skip
    exact sublist_seg _ (List.Sublist.refl _)
  case refine_10 =>
    intro hno
    unfold initTraceEvents
    rw [hno]
    apply sublist_skip
    apply sublist_skip
    apply sublist_skip
    apply sublist_skip
    apply sublist_skip
    apply sublist_skip
    apply sublist_cons_append (by simp)
    simp
  case refine_11 =>
    intro hno p
    unfold initTraceEvents
    rw [hno]
    simp [List.mem_flatMap]

/-- Witness for C9 at a concrete option set: one explicit plugin path, two
pending handlers, one setup method. -/
theorem c9_bootstrap_ordering_witness :
    appInitTrace ⟨none, false, 1, some "/srv", false⟩ 2 1 =
        .ok (initTraceEvents ⟨none, false, 1, some "/srv", false⟩ "/srv" 2 1) ∧
      [Ev.invokePending 0, Ev.invokePending 1].Sublist
        (initTraceEvents ⟨none, false, 1, some "/srv", false⟩ "/srv" 2 1) :=
  ⟨(c9_bootstrap_ordering ⟨none, false, 1, some "/srv", false⟩ "/srv" 2 1 rfl
      (by decide)).1,
    (c9_bootstrap_ordering ⟨none, false, 1, some "/srv", false⟩ "/srv" 2 1 rfl
      (by decide)).2.2.1 0 1 (by decide) (by decide)⟩

end PlugableExpress
